import Mathlib

/-!
Verification of the worktree-manager status-derivation and hook-execution
engine against its specification.

The development shallowly embeds the TypeScript sources:
  - `src/lib/hooks.ts` (hook configuration normalization and execution),
  - `src/lib/config.ts` (the zod `HookCommandSchema` for hook configuration),
  - `src/lib/git/status.ts` (worktree status derivation),
  - `src/lib/git/worktree.ts` (`parseWorktreeList`),
  - `src/lib/paths.ts` (`deriveRepoId` and friends).

External collaborators (the git binary, the shell, the system clock) are
modelled as explicit inputs: a `GitEnv` record supplies the result of each
git subprocess invocation, and a `run` function supplies the result of each
shell command a hook executes.  JavaScript numbers are modelled as exact
integers/rationals, JavaScript strings as Lean strings (or character lists
where structural reasoning is needed).
-/

namespace Wtm

/-! ## Hook configuration (src/lib/config.ts, src/lib/hooks.ts) -/

/-- Default timeout for hook commands in seconds (`DEFAULT_TIMEOUT` in
`src/lib/hooks.ts`). -/
def DEFAULT_TIMEOUT : Int := 30

/-- A `string | string[]` value, as appears in the `commands` field of the
object form of `HookCommandSchema` (`src/lib/config.ts`). -/
inductive StrOrList where
  | one : String → StrOrList
  | many : List String → StrOrList
deriving DecidableEq

/-- The `HookCommand` union type of `src/lib/config.ts`:
`string | string[] | { commands, timeout?, continueOnError? }`. -/
inductive HookCommand where
  | str : String → HookCommand
  | arr : List String → HookCommand
  | obj : StrOrList → Option Int → Option Bool → HookCommand
deriving DecidableEq

/-- Normalized hook configuration (`NormalizedHookConfig` in
`src/lib/hooks.ts`). -/
structure NormalizedHookConfig where
  commands : List String
  timeout : Int
  continueOnError : Bool
deriving DecidableEq

/-- Flattening of a `string | string[]` commands value into a list, as done
by `typeof config.commands === "string" ? [config.commands] : config.commands`
in `normalizeHookConfig` (`src/lib/hooks.ts`). -/
def StrOrList.toList : StrOrList → List String
  | .one s => [s]
  | .many l => l

/-- Translation of `normalizeHookConfig` (`src/lib/hooks.ts` lines 46-80).
The `undefined` argument is modelled as `none`.  The source's leading
`if (!config) return null` is a JavaScript truthiness check: besides
`undefined` it rejects the empty string (arrays and objects are always
truthy), so the empty-string configuration also normalizes to `none`. -/
def normalizeHookConfig : Option HookCommand → Option NormalizedHookConfig
  | none => none
  | some (.str s) =>
      if s = "" then none
      else some ⟨[s], DEFAULT_TIMEOUT, false⟩
  | some (.arr l) => some ⟨l, DEFAULT_TIMEOUT, false⟩
  | some (.obj c t e) =>
      some ⟨c.toList, t.getD DEFAULT_TIMEOUT, e.getD false⟩

/-! ## The zod schema for hook configuration (src/lib/config.ts lines 205-213)

JSON values are modelled with numbers as integers (sufficient for the claims
considered here).  A JSON object is a list of key/value pairs with unique
keys (guaranteed upstream by `JSON.parse`). -/

/-- A JSON value. -/
inductive JsonValue where
  | null : JsonValue
  | bool : Bool → JsonValue
  | num : Int → JsonValue
  | str : String → JsonValue
  | arr : List JsonValue → JsonValue
  | obj : List (String × JsonValue) → JsonValue

/-- Look up a key in a JSON object body. -/
def lookupField (fields : List (String × JsonValue)) (k : String) :
    Option JsonValue :=
  (fields.find? (fun p => p.1 == k)).map (fun p => p.2)

/-- Parse a JSON array as `z.array(z.string())` would. -/
def jsonStringList : List JsonValue → Option (List String)
  | [] => some []
  | .str s :: rest => (jsonStringList rest).map (fun l => s :: l)
  | _ => none

/-- Parse the `commands` field: `z.union([z.string(), z.array(z.string())])`. -/
def parseCommandsField : JsonValue → Option StrOrList
  | .str s => some (.one s)
  | .arr xs => (jsonStringList xs).map .many
  | _ => none

/-- Parse the optional `timeout` field: `z.number().positive().optional()`.
An absent key is accepted as `none`; a present key must be a positive
number. -/
def parseTimeoutField : Option JsonValue → Option (Option Int)
  | none => some none
  | some (.num n) => if 0 < n then some (some n) else none
  | some _ => none

/-- Parse the optional `continueOnError` field: `z.boolean().optional()`. -/
def parseContinueField : Option JsonValue → Option (Option Bool)
  | none => some none
  | some (.bool b) => some (some b)
  | some _ => none

/-- Validation performed by `HookCommandSchema` (`src/lib/config.ts` lines
205-213): the union of a string, an array of strings, and an object with a
`commands` field, an optional positive `timeout` and an optional boolean
`continueOnError`.  Unknown object keys are stripped, as zod does by
default. -/
def parseHookCommandJson : JsonValue → Option HookCommand
  | .str s => some (.str s)
  | .arr xs => (jsonStringList xs).map HookCommand.arr
  | .obj fields => do
      let cj ← lookupField fields "commands"
      let c ← parseCommandsField cj
      let t ← parseTimeoutField (lookupField fields "timeout")
      let e ← parseContinueField (lookupField fields "continueOnError")
      some (.obj c t e)
  | _ => none

/-! ## Hook execution (src/lib/hooks.ts lines 156-201)

`execShellCommand` (the shell collaborator, `src/utils/compat.ts`) is
modelled as a function `run` from a command string to its result; it never
throws (the source catches spawn errors and reports them in the result).
`executeHook` is modelled by the list of commands it actually executes and
the list of commands for which it logs a failure warning. -/

/-- Result of a single hook command execution (`HookResult` in
`src/lib/hooks.ts`). -/
structure HookResult where
  success : Bool
  exitCode : Int
  timedOut : Bool
deriving DecidableEq

/-- Observable trace of one `executeHook` call: the commands executed, in
order, and the commands whose failure was logged as a warning. -/
structure HookExecTrace where
  executed : List String
  warnings : List String
deriving DecidableEq

/-- The command loop of `executeHook` (`src/lib/hooks.ts` lines 174-200):
run each command in order; on failure log a warning and, unless
`continueOnError` is set, stop. -/
def runHookCommands (run : String → HookResult) (continueOnError : Bool) :
    List String → HookExecTrace
  | [] => ⟨[], []⟩
  | c :: rest =>
      if (run c).success then
        let t := runHookCommands run continueOnError rest
        ⟨c :: t.executed, t.warnings⟩
      else if continueOnError then
        let t := runHookCommands run continueOnError rest
        ⟨c :: t.executed, c :: t.warnings⟩
      else
        ⟨[c], [c]⟩

/-- Translation of `executeHook` (`src/lib/hooks.ts` lines 156-201): an
absent configuration or an empty command list performs no work; otherwise
the commands are run by `runHookCommands`.  The function is total: it never
throws. -/
def executeHook (hookConfig : Option HookCommand)
    (run : String → HookResult) : HookExecTrace :=
  match normalizeHookConfig hookConfig with
  | none => ⟨[], []⟩
  | some n =>
      if n.commands.isEmpty then ⟨[], []⟩
      else runHookCommands run n.continueOnError n.commands

/-! ## Status engine (src/lib/git/status.ts, src/lib/constants.ts)

Each git subprocess invocation made by `getWorktreeStatus` is modelled as a
field of a `GitEnv` record: the status computation is then a pure function
of that environment, the worktree's branch, and the configured comparison
branch. -/

/-- Result of a git invocation, as far as the status engine observes it
(`GitResult` in `src/lib/types.ts`; `stderr` and `exitCode` are not read by
the status engine). -/
structure GitResult where
  success : Bool
  stdout : String

/-- Default branch names to check for main branch detection
(`DEFAULT_BRANCHES` in `src/lib/constants.ts`). -/
def DEFAULT_BRANCHES : List String := ["main", "master"]

/-- Remote branch names to check, with origin qualifier
(`REMOTE_DEFAULT_BRANCHES` in `src/lib/constants.ts`). -/
def REMOTE_DEFAULT_BRANCHES : List String := ["origin/main", "origin/master"]

/-- Number of days without commits before a branch is considered stale
(`STALE_DAYS_THRESHOLD` in `src/lib/constants.ts`). -/
def STALE_DAYS_THRESHOLD : ℚ := 30

/-- The statuses a worktree can carry (`WorktreeStatus` in
`src/lib/types.ts`): the four sync states and the four conditions. -/
inductive WorktreeStatus where
  | synced | ahead | behind | diverged
  | dirty | merged | stale | orphan
deriving DecidableEq

/-- Whether a status value is one of the four sync states. -/
def isSyncState : WorktreeStatus → Bool
  | .synced => true
  | .ahead => true
  | .behind => true
  | .diverged => true
  | _ => false

/-- The outcome of every git invocation `getWorktreeStatus` can make,
together with the current wall-clock time (`Date.now() / 1000`, in
seconds, modelled as an exact rational). -/
structure GitEnv where
  /-- `git status --porcelain` in the worktree. -/
  statusPorcelain : GitResult
  /-- Whether `git rev-parse --verify <ref>` succeeds for a ref. -/
  verify : String → Bool
  /-- `git rev-list --left-right --count <cmp>...HEAD` for a comparison
  branch `cmp`. -/
  revListLeftRight : String → GitResult
  /-- `git branch --merged <ref>` for a ref. -/
  branchesMerged : String → GitResult
  /-- `git log -1 --format=%ct` in the worktree. -/
  logLastCt : GitResult
  /-- Current time in seconds (`Date.now() / 1000`). -/
  nowSec : ℚ

/-- Splitting of a character list at every character satisfying a
predicate (string functions are modelled at the character-list level
throughout, so that every definition evaluates by structural
recursion). -/
def splitOnPred (p : Char → Bool) (acc : List Char) :
    List Char → List (List Char)
  | [] => [acc]
  | c :: rest =>
      if p c then acc :: splitOnPred p [] rest
      else splitOnPred p (acc ++ [c]) rest

/-- Model of JavaScript `s.trim()`: drop whitespace from both ends. -/
def trimChars (cs : List Char) : List Char :=
  ((cs.dropWhile Char.isWhitespace).reverse.dropWhile Char.isWhitespace).reverse

/-- Decimal digit run to a natural number. -/
def parseNatDigits (cs : List Char) : Option Nat :=
  let ds := cs.takeWhile Char.isDigit
  if ds.isEmpty then none
  else some (ds.foldl (fun n c => n * 10 + (c.toNat - 48)) 0)

/-- Model of JavaScript `parseInt(s, 10)` on whitespace-free input: an
optional sign followed by leading decimal digits; `NaN` (here `none`) when
no digits are found. -/
def parseIntChars : List Char → Option Int
  | '-' :: rest => (parseNatDigits rest).map (fun n => -(n : Int))
  | '+' :: rest => (parseNatDigits rest).map (fun n => (n : Int))
  | cs => (parseNatDigits cs).map (fun n => (n : Int))

/-- Model of JavaScript `s.split(/\s+/)` on trimmed input: split on runs of
whitespace.  (On the empty string the regex split returns `[""]` where this
returns `[]`; both fail the length-two check at the only use site.) -/
def splitWs (cs : List Char) : List (List Char) :=
  (splitOnPred Char.isWhitespace [] cs).filter (fun t => t ≠ [])

/-- Parsing of the `rev-list --left-right --count` output
(`src/lib/git/status.ts` lines 367-372): trim, split on whitespace, require
exactly two parseable numbers; `parts[0]` is the behind count and
`parts[1]` the ahead count.  Returns `(behind, ahead)`. -/
def parseAheadBehind (out : String) : Option (Int × Int) :=
  match splitWs (trimChars out.data) with
  | [p0, p1] =>
      match parseIntChars p0, parseIntChars p1 with
      | some b, some a => some (b, a)
      | _, _ => none
  | _ => none

/-- The sync classification of `src/lib/git/status.ts` lines 376-384:
diverged when ahead and behind are both positive, else behind, else ahead,
else synced. -/
def classifySync (ahead behind : Int) : WorktreeStatus :=
  if 0 < ahead ∧ 0 < behind then .diverged
  else if 0 < behind then .behind
  else if 0 < ahead then .ahead
  else .synced

/-- Translation of `getMainBranch` (`src/lib/git/status.ts` lines 435-443):
probe local `main` then `master`, first verified ref wins. -/
def getMainBranch (verify : String → Bool) : Option String :=
  DEFAULT_BRANCHES.find? verify

/-- Translation of `getComparisonBranch` (`src/lib/git/status.ts` lines
453-471): probe the remote default branches first, then fall back to the
local default branches; first verified ref wins. -/
def getComparisonBranch (verify : String → Bool) : Option String :=
  match REMOTE_DEFAULT_BRANCHES.find? verify with
  | some b => some b
  | none => DEFAULT_BRANCHES.find? verify

/-- Modelled from the spec: the comparison-branch resolution of the current
status engine, whose source is not under `src/` (only its caller
`src/tui/hooks/useWorktrees.ts` is, passing a configured comparison branch
as third argument).  Per the spec, "if a configured comparison branch is
supplied, use it.  Otherwise probe" — the probing being the
`getComparisonBranch` of `src/lib/git/status.ts`. -/
def resolveComparisonBranch (verify : String → Bool)
    (configured : Option String) : Option String :=
  match configured with
  | some b => some b
  | none => getComparisonBranch verify

/-- Result of `getWorktreeStatus` (`WorktreeStatusResult` in
`src/lib/git/status.ts`).  The `comparisonBranch` field is modelled from
the spec and the caller (`useWorktrees.ts` reads
`statusResult.comparisonBranch`): the branch actually used for the sync
computation. -/
structure WorktreeStatusResult where
  status : List WorktreeStatus
  ahead : Option Int
  behind : Option Int
  comparisonBranch : Option String

/-- The dirty check (`src/lib/git/status.ts` lines 341-346): `git status
--porcelain` succeeded with non-empty trimmed output. -/
def dirtyBlock (env : GitEnv) : List WorktreeStatus :=
  if env.statusPorcelain.success
      && !(trimChars env.statusPorcelain.stdout.data).isEmpty
  then [.dirty] else []

/-- Outcome of the ahead/behind block: the statuses it pushes and the
`ahead`/`behind` variables it sets. -/
structure SyncOutcome where
  statuses : List WorktreeStatus
  ahead : Option Int
  behind : Option Int

/-- The ahead/behind block (`src/lib/git/status.ts` lines 354-388): skipped
when the worktree sits on the mainline and the comparison branch is not
remote-qualified; otherwise parse the `rev-list --left-right --count`
output and push exactly one sync state. -/
def syncBlock (env : GitEnv) (br : String) (mainBranch : Option String)
    (cmp : String) : SyncOutcome :=
  -- `!isPrimaryWorktree || hasRemoteComparison` in the source, where
  -- `isPrimaryWorktree` is `mainBranch && branch === mainBranch` and
  -- `hasRemoteComparison` is `comparisonBranch.startsWith("origin/")`
  if !(mainBranch == some br) || "origin/".data.isPrefixOf cmp.data then
    if (env.revListLeftRight cmp).success then
      match parseAheadBehind (env.revListLeftRight cmp).stdout with
      | some (b, a) => ⟨[classifySync a b], some a, some b⟩
      | none => ⟨[], none, none⟩
    else ⟨[], none, none⟩
  else ⟨[], none, none⟩

/-- Stripping of the current-branch marker from a `git branch --merged`
line (`.trim().replace(/^\*\s*/, "")` in `src/lib/git/status.ts`). -/
def stripMergedMarker (cs : List Char) : List Char :=
  match trimChars cs with
  | '*' :: rest => rest.dropWhile Char.isWhitespace
  | t => t

/-- The ref against which the merged listing is taken: the comparison
branch when it is remote-qualified, the local mainline otherwise
(`src/lib/git/status.ts` lines 394-396). -/
def mergeCheckRef (cmp m : String) : String :=
  if "origin/".data.isPrefixOf cmp.data then cmp else m

/-- The branch names extracted from a `git branch --merged` listing: split
on newlines, trim, strip the current-branch marker
(`src/lib/git/status.ts` lines 404-406). -/
def mergedListingOf (out : String) : List (List Char) :=
  (splitOnPred (fun c => c = '\n') [] out.data).map stripMergedMarker

/-- The merged check (`src/lib/git/status.ts` lines 390-411): only when a
mainline exists, the branch is not the mainline, and the behind count was
set positive; the listing ref is the comparison branch when it is
remote-qualified, the local mainline otherwise (the JavaScript guard
`behind && behind > 0` is truthiness on the number `behind`, hence the
`b ≠ 0` conjunct). -/
def mergedBlock (env : GitEnv) (br : String) (mainBranch : Option String)
    (cmp : String) (behind : Option Int) : List WorktreeStatus :=
  match mainBranch, behind with
  | some m, some b =>
      if br ≠ m ∧ b ≠ 0 ∧ 0 < b then
        if (env.branchesMerged (mergeCheckRef cmp m)).success then
          if br.data ∈
              mergedListingOf (env.branchesMerged (mergeCheckRef cmp m)).stdout
          then [.merged] else []
        else []
      else []
  | _, _ => []

/-- The staleness check (`src/lib/git/status.ts` lines 416-427): parse the
last-commit timestamp; stale when the elapsed time in days strictly exceeds
the threshold.  A failed or unparseable timestamp adds nothing. -/
def staleBlock (env : GitEnv) : List WorktreeStatus :=
  if env.logLastCt.success then
    match parseIntChars (trimChars env.logLastCt.stdout.data) with
    | some timestamp =>
        if (env.nowSec - (timestamp : ℚ)) / 86400 > STALE_DAYS_THRESHOLD
        then [.stale] else []
    | none => []
  else []

/-- Translation of `getWorktreeStatus` (`src/lib/git/status.ts` lines
332-430), extended with the configured-comparison-branch parameter its
current caller passes (modelled from the spec, see
`resolveComparisonBranch`).  The sequential pushes of the source are
rendered as the concatenation of the four blocks in push order: dirty,
sync state, merged, stale.  With no branch (detached HEAD) or no resolvable
comparison branch, the whole sync/merged section is skipped. -/
def getWorktreeStatus (env : GitEnv) (branch : Option String)
    (configured : Option String) : WorktreeStatusResult :=
  let dirtyS := dirtyBlock env
  let staleS := staleBlock env
  match branch with
  | none => ⟨dirtyS ++ staleS, none, none, none⟩
  | some br =>
      let mainBranch := getMainBranch env.verify
      match resolveComparisonBranch env.verify configured with
      | none => ⟨dirtyS ++ staleS, none, none, none⟩
      | some cmp =>
          let so := syncBlock env br mainBranch cmp
          let mergedS := mergedBlock env br mainBranch cmp so.behind
          ⟨dirtyS ++ so.statuses ++ mergedS ++ staleS,
           so.ahead, so.behind, some cmp⟩

/-! ## Worktree listing parser (src/lib/git/worktree.ts lines 20-60)

The parser splits its input on blank lines and on newlines; to reason about
those splits structurally, strings are modelled here at the character-list
level (`String.data`), with splitters mirroring JavaScript
`String.prototype.split` with a literal separator. -/

/-- Model of JavaScript `s.split("\n\n")`: non-overlapping, left-to-right.
`acc` is the piece being accumulated. -/
def splitNN (acc : List Char) : List Char → List (List Char)
  | [] => [acc]
  | [c] => [acc ++ [c]]
  | c :: c2 :: rest =>
      if c = '\n' ∧ c2 = '\n' then acc :: splitNN [] rest
      else splitNN (acc ++ [c]) (c2 :: rest)

/-- Model of JavaScript `s.split(sep)` for a one-character separator. -/
def splitOnChar (sep : Char) (acc : List Char) : List Char → List (List Char)
  | [] => [acc]
  | c :: rest =>
      if c = sep then acc :: splitOnChar sep [] rest
      else splitOnChar sep (acc ++ [c]) rest

/-- Model of Node `basename` (posix): the last nonempty `/`-separated
segment, empty when there is none. -/
def basenameChars (p : List Char) : List Char :=
  (((splitOnChar '/' [] p).filter (fun seg => seg ≠ [])).getLast?).getD []

/-- The record built line by line for one listing block
(`Partial<Worktree>` in `parseWorktreeList`).  `branch = some none` models
the explicit `null` assigned on a `detached` line. -/
structure PartialWorktree where
  path : Option (List Char)
  name : Option (List Char)
  head : Option (List Char)
  branch : Option (Option (List Char))
  isDetached : Bool
  isLocked : Bool
  isPrunable : Bool

/-- The initial partial record of a block (`isDetached`, `isLocked`,
`isPrunable` initialized to `false`; everything else unset). -/
def initialPartial : PartialWorktree :=
  ⟨none, none, none, none, false, false, false⟩

/-- Stripping of the `refs/heads/` qualifier from a branch line
(`line.slice(7).replace(/^refs\/heads\//, "")`). -/
def stripRefsHeads (cs : List Char) : List Char :=
  if "refs/heads/".data.isPrefixOf cs then cs.drop 11 else cs

/-- One iteration of the line loop of `parseWorktreeList`
(`src/lib/git/worktree.ts` lines 34-52).  A `bare` line, like any
unrecognized line, leaves the record unchanged. -/
def applyLine (w : PartialWorktree) (line : List Char) : PartialWorktree :=
  if "worktree ".data.isPrefixOf line then
    let p := line.drop 9
    { w with path := some p, name := some (basenameChars p) }
  else if "HEAD ".data.isPrefixOf line then
    { w with head := some (line.drop 5) }
  else if "branch ".data.isPrefixOf line then
    { w with branch := some (some (stripRefsHeads (line.drop 7))) }
  else if line = "detached".data then
    { w with isDetached := true, branch := some none }
  else if line = "locked".data then
    { w with isLocked := true }
  else if line = "prunable".data then
    { w with isPrunable := true }
  else w

/-- Folding a block's lines into a partial record. -/
def parseBlock (block : List Char) : PartialWorktree :=
  (splitOnChar '\n' [] block).foldl applyLine initialPartial

/-- A parsed worktree record (`Omit<Worktree, "isPrimary">` as produced by
`parseWorktreeList`; an absent branch line leaves `branch` undefined,
modelled as `none` like the explicit `null`). -/
structure Worktree where
  name : String
  path : String
  branch : Option String
  head : String
  isDetached : Bool
  isLocked : Bool
  isPrunable : Bool
deriving DecidableEq

/-- The final keep check of the block loop: `if (worktree.path &&
worktree.head)` — JavaScript truthiness, so both must be set and
nonempty. -/
def keepWorktree (w : PartialWorktree) : Option Worktree :=
  match w.path, w.head with
  | some p, some h =>
      if p ≠ [] ∧ h ≠ [] then
        some ⟨String.mk (w.name.getD []), String.mk p,
              (w.branch.getD none).map String.mk, String.mk h,
              w.isDetached, w.isLocked, w.isPrunable⟩
      else none
  | _, _ => none

/-- Translation of `parseWorktreeList` (`src/lib/git/worktree.ts` lines
20-60): split on blank lines, drop whitespace-only blocks, fold each
block's lines, keep the record when both path and head are set and
nonempty. -/
def parseWorktreeList (output : String) : List Worktree :=
  ((splitNN [] output.data).filter (fun b => trimChars b ≠ [])).filterMap
    (fun b => keepWorktree (parseBlock b))

/-- The payload of the last line of a block carrying a given tag (the line
loop overwrites on repeats, so the last tagged line wins). -/
def lastTagPayload (tag : List Char) : List (List Char) → Option (List Char)
  | [] => none
  | l :: ls =>
      match lastTagPayload tag ls with
      | some p => some p
      | none => if tag.isPrefixOf l then some (l.drop tag.length) else none

/-- A well-formed listing block: its last `worktree `-tagged line carries a
nonempty path and its last `HEAD `-tagged line a nonempty commit. -/
def wellFormedBlock (b : List Char) : Bool :=
  (match lastTagPayload "worktree ".data (splitOnChar '\n' [] b) with
   | some p => p ≠ []
   | none => false)
  && (match lastTagPayload "HEAD ".data (splitOnChar '\n' [] b) with
      | some h => h ≠ []
      | none => false)

/-- The worktree record a well-formed block parses to. -/
def recordOfBlock (w : PartialWorktree) : Worktree :=
  ⟨String.mk (w.name.getD []), String.mk (w.path.getD []),
   (w.branch.getD none).map String.mk, String.mk (w.head.getD []),
   w.isDetached, w.isLocked, w.isPrunable⟩

/-! ## SHA-256 (the node:crypto collaborator used by src/lib/paths.ts)

`createHash("sha256").update(s).digest("hex")` is modelled by a direct
implementation of FIPS 180-4 SHA-256 over the UTF-8 bytes of the string,
with 32-bit words as naturals reduced modulo `2 ^ 32`. -/

/-- Reduction to a 32-bit word. -/
def w32 (n : Nat) : Nat := n % 4294967296

/-- Right rotation of a 32-bit word by `n` bits. -/
def rotr32 (n x : Nat) : Nat := w32 (x / 2 ^ n + x * 2 ^ (32 - n))

/-- Bitwise complement of a 32-bit word. -/
def not32 (x : Nat) : Nat := 4294967295 - w32 x

/-- UTF-8 encoding of one character. -/
def utf8EncodeChar (c : Char) : List Nat :=
  let n := c.toNat
  if n < 128 then [n]
  else if n < 2048 then [192 + n / 64, 128 + n % 64]
  else if n < 65536 then
    [224 + n / 4096, 128 + n / 64 % 64, 128 + n % 64]
  else
    [240 + n / 262144, 128 + n / 4096 % 64, 128 + n / 64 % 64, 128 + n % 64]

/-- UTF-8 bytes of a string. -/
def utf8Bytes (s : String) : List Nat := s.data.flatMap utf8EncodeChar

/-- The SHA-256 round constants (FIPS 180-4, in decimal). -/
def sha256K : List Nat :=
  [1116352408, 1899447441, 3049323471, 3921009573, 961987163,
   1508970993, 2453635748, 2870763221, 3624381080, 310598401,
   607225278, 1426881987, 1925078388, 2162078206, 2614888103,
   3248222580, 3835390401, 4022224774, 264347078, 604807628,
   770255983, 1249150122, 1555081692, 1996064986, 2554220882,
   2821834349, 2952996808, 3210313671, 3336571891, 3584528711,
   113926993, 338241895, 666307205, 773529912, 1294757372,
   1396182291, 1695183700, 1986661051, 2177026350, 2456956037,
   2730485921, 2820302411, 3259730800, 3345764771, 3516065817,
   3600352804, 4094571909, 275423344, 430227734, 506948616,
   659060556, 883997877, 958139571, 1322822218, 1537002063,
   1747873779, 1955562222, 2024104815, 2227730452, 2361852424,
   2428436474, 2756734187, 3204031479, 3329325298]

/-- The SHA-256 initial hash value (FIPS 180-4, in decimal). -/
def sha256H0 : List Nat :=
  [1779033703, 3144134277, 1013904242, 2773480762, 1359893119,
   2600822924, 528734635, 1541459225]

/-- SHA-256 padding: append `0x80`, zeros to 56 mod 64, and the bit length
as eight big-endian bytes. -/
def sha256Pad (msg : List Nat) : List Nat :=
  let len := msg.length
  let zeros := List.replicate ((119 - len % 64) % 64) 0
  let lenBits := 8 * len
  msg ++ [128] ++ zeros ++
    ([56, 48, 40, 32, 24, 16, 8, 0].map (fun i => lenBits / 2 ^ i % 256))

/-- Grouping of a byte list into 64-byte blocks, with an explicit fuel
argument so the recursion is structural. -/
def chunksFuel : Nat → List Nat → List (List Nat)
  | _, [] => []
  | 0, l => [l]
  | n + 1, l => l.take 64 :: chunksFuel n (l.drop 64)

/-- Grouping of a byte list into 64-byte blocks. -/
def chunks64 (l : List Nat) : List (List Nat) := chunksFuel l.length l

/-- Big-endian 32-bit words from bytes. -/
def toWords32 : List Nat → List Nat
  | b0 :: b1 :: b2 :: b3 :: rest =>
      (b0 * 16777216 + b1 * 65536 + b2 * 256 + b3) :: toWords32 rest
  | _ => []

/-- The small sigma functions of the message schedule. -/
def sSigma0 (x : Nat) : Nat := rotr32 7 x ^^^ rotr32 18 x ^^^ x / 2 ^ 3

/-- Second small sigma function. -/
def sSigma1 (x : Nat) : Nat := rotr32 17 x ^^^ rotr32 19 x ^^^ x / 2 ^ 10

/-- The big sigma functions of the compression loop. -/
def bSigma0 (x : Nat) : Nat := rotr32 2 x ^^^ rotr32 13 x ^^^ rotr32 22 x

/-- Second big sigma function. -/
def bSigma1 (x : Nat) : Nat := rotr32 6 x ^^^ rotr32 11 x ^^^ rotr32 25 x

/-- Extension of the 16-word schedule to 64 words (`n` words left to
add). -/
def extendSchedule : Nat → List Nat → List Nat
  | 0, w => w
  | n + 1, w =>
      let t := w.length
      extendSchedule n
        (w ++ [w32 (sSigma1 (w.getD (t - 2) 0) + w.getD (t - 7) 0
                    + sSigma0 (w.getD (t - 15) 0) + w.getD (t - 16) 0)])

/-- One round of the SHA-256 compression function; the state is the list
`[a, b, c, d, e, f, g, h]` and `wk` the pair of schedule word and round
constant. -/
def compressStep (st : List Nat) (wk : Nat × Nat) : List Nat :=
  match st with
  | [a, b, c, d, e, f, g, h] =>
      let chEFG := (not32 e &&& g) ^^^ (e &&& f)
      let majABC := (b &&& c) ^^^ (a &&& c) ^^^ (a &&& b)
      let temp1 := h + bSigma1 e + chEFG + wk.2 + wk.1
      let temp2 := bSigma0 a + majABC
      [w32 (temp1 + temp2), a, b, c, w32 (d + temp1), e, f, g]
  | other => other

/-- Processing of one 64-byte block. -/
def processBlock (h : List Nat) (block : List Nat) : List Nat :=
  let w := extendSchedule 48 (toWords32 block)
  let st := (w.zip sha256K).foldl compressStep h
  (h.zip st).map (fun p => w32 (p.1 + p.2))

/-- The SHA-256 digest, as eight 32-bit words. -/
def sha256Words (msg : List Nat) : List Nat :=
  (chunks64 (sha256Pad msg)).foldl processBlock sha256H0

/-- Lowercase hexadecimal digit. -/
def hexDigit (n : Nat) : Char :=
  if n < 10 then Char.ofNat (48 + n) else Char.ofNat (87 + n)

/-- Eight lowercase hex characters of a 32-bit word. -/
def word32ToHex (x : Nat) : List Char :=
  [28, 24, 20, 16, 12, 8, 4, 0].map (fun i => hexDigit (x / 2 ^ i % 16))

/-- Characters of `createHash("sha256").update(s).digest("hex")`. -/
def sha256HexChars (s : String) : List Char :=
  (sha256Words (utf8Bytes s)).flatMap word32ToHex

/-- Model of `createHash("sha256").update(s).digest("hex")`. -/
def sha256Hex (s : String) : String :=
  String.mk (sha256HexChars s)

/-! ## Repository identifier derivation (src/lib/paths.ts) -/

/-- The `path.replace(/\//g, "-")` step of the identifier derivation. -/
def replaceSlashes (s : String) : String :=
  String.mk (s.data.map (fun c => if c = '/' then '-' else c))

/-- The effect of the `(.+?)(?:\.git)?$` regex tail: a trailing `.git` is
stripped when what precedes it is nonempty (the lazy group needs at least
one character). -/
def stripDotGit (cs : List Char) : List Char :=
  if ".git".data.isSuffixOf cs ∧ 4 < cs.length then cs.take (cs.length - 4)
  else cs

/-- Matching of the SSH remote form `^git@([^:]+):(.+?)(?:\.git)?$`
(`src/lib/paths.ts`): host up to the first colon, nonempty path after it,
trailing `.git` stripped. -/
def sshParts (url : String) : Option (String × String) :=
  if "git@".data.isPrefixOf url.data then
    let rest := url.data.drop 4
    let host := rest.takeWhile (fun c => c ≠ ':')
    match rest.drop host.length with
    | ':' :: path =>
        if host ≠ [] ∧ path ≠ [] then
          some (String.mk host, String.mk (stripDotGit path))
        else none
    | _ => none
  else none

/-- Matching of the HTTPS remote form
`^https?:\/\/([^/]+)\/(.+?)(?:\.git)?$` (`src/lib/paths.ts`). -/
def httpsParts (url : String) : Option (String × String) :=
  let body :=
    if "https://".data.isPrefixOf url.data then some (url.data.drop 8)
    else if "http://".data.isPrefixOf url.data then some (url.data.drop 7)
    else none
  match body with
  | none => none
  | some rest =>
      let host := rest.takeWhile (fun c => c ≠ '/')
      match rest.drop host.length with
      | '/' :: path =>
          if host ≠ [] ∧ path ≠ [] then
            some (String.mk host, String.mk (stripDotGit path))
          else none
      | _ => none

/-- Translation of `deriveRepoIdFromUrl` (`src/lib/paths.ts`): try the SSH
form, then the HTTPS form, else fall back to `repo-` plus the first eight
hex characters of the SHA-256 of the URL. -/
def deriveRepoIdFromUrl (url : String) : String :=
  match sshParts url with
  | some (host, path) => host ++ "-" ++ replaceSlashes path
  | none =>
      match httpsParts url with
      | some (host, path) => host ++ "-" ++ replaceSlashes path
      | none => "repo-" ++ String.mk ((sha256HexChars url).take 8)

/-- Translation of `deriveRepoIdFromPath` (`src/lib/paths.ts`): directory
basename plus the first eight hex characters of the SHA-256 of the
path. -/
def deriveRepoIdFromPath (dirPath : String) : String :=
  String.mk (basenameChars dirPath.data) ++ "-"
    ++ String.mk ((sha256HexChars dirPath).take 8)

/-- Translation of `deriveRepoId` (`src/lib/paths.ts`): use the remote URL
when truthy (present and nonempty), else fall back to the path. -/
def deriveRepoId (remoteUrl : Option String) (fallbackPath : String) : String :=
  match remoteUrl with
  | some url =>
      if url ≠ "" then deriveRepoIdFromUrl url
      else deriveRepoIdFromPath fallbackPath
  | none => deriveRepoIdFromPath fallbackPath

/-- A lowercase hexadecimal character. -/
def isHexChar (c : Char) : Bool :=
  c.isDigit || ('a' ≤ c && c ≤ 'f')

/-! ## Spec-side definitions and concrete environments

`specSyncState` renders the spec's classification table verbatim, to be
compared against the source's `classifySync`.  The concrete `GitEnv`
values below realize scenarios from the spec's testable properties. -/

/-- The spec's classification table, stated as written: `(0,0) → synced`,
`(>0,0) → ahead`, `(0,>0) → behind`, `(>0,>0) → diverged`. -/
def specSyncState (aheadCount behindCount : Int) : WorktreeStatus :=
  if aheadCount = 0 ∧ behindCount = 0 then .synced
  else if 0 < aheadCount ∧ behindCount = 0 then .ahead
  else if aheadCount = 0 ∧ 0 < behindCount then .behind
  else .diverged

/-- Scenario environment: a clean worktree whose branch is 3 commits
behind and 0 ahead of `origin/main`, and which appears in the merged
listing of `origin/main`.  The last-commit query fails, so no staleness is
derived. -/
def envScenario : GitEnv :=
  ⟨⟨true, ""⟩,
   fun r => r == "origin/main" || r == "main",
   fun c => if c == "origin/main" then ⟨true, "3\t0"⟩ else ⟨false, ""⟩,
   fun c => if c == "origin/main" then ⟨true, "  feature-x\n* main"⟩
            else ⟨false, ""⟩,
   ⟨false, ""⟩, 0⟩

/-- Environment whose ahead/behind query reports `0 0` against
`origin/main`. -/
def envCounts : GitEnv :=
  ⟨⟨true, ""⟩,
   fun r => r == "origin/main" || r == "main",
   fun c => if c == "origin/main" then ⟨true, "0\t0"⟩ else ⟨false, ""⟩,
   fun _ => ⟨false, ""⟩,
   ⟨false, ""⟩, 0⟩

/-- Environment whose last commit is exactly thirty days old. -/
def envStale30 : GitEnv :=
  ⟨⟨false, ""⟩, fun _ => false, fun _ => ⟨false, ""⟩, fun _ => ⟨false, ""⟩,
   ⟨true, "1000"⟩, ((1000 : Int) : ℚ) + STALE_DAYS_THRESHOLD * 86400⟩

/-- Environment with a dirty working tree and every other query
failing. -/
def envDetached : GitEnv :=
  ⟨⟨true, " M file.txt"⟩, fun _ => false, fun _ => ⟨false, ""⟩,
   fun _ => ⟨false, ""⟩, ⟨false, ""⟩, 0⟩

/-! ## Properties of the hook engine -/

/-- With `continueOnError = false` the loop executes the successful run of
commands and then at most the first failing one. -/
theorem runHookCommands_stop (run : String → HookResult) (cmds : List String) :
    (runHookCommands run false cmds).executed
      = cmds.takeWhile (fun c => (run c).success)
        ++ (cmds.dropWhile (fun c => (run c).success)).take 1 := by
  induction cmds with
  | nil => rfl
  | cons c rest ih =>
      by_cases h : (run c).success
      · simp [runHookCommands, h, List.takeWhile_cons, List.dropWhile_cons, ih]
      · simp [runHookCommands, h, List.takeWhile_cons, List.dropWhile_cons]

/-- With `continueOnError = true` the loop executes every command. -/
theorem runHookCommands_all (run : String → HookResult) (cmds : List String) :
    (runHookCommands run true cmds).executed = cmds := by
  induction cmds with
  | nil => rfl
  | cons c rest ih =>
      by_cases h : (run c).success <;> simp [runHookCommands, h, ih]

/-- A warning is logged exactly for the executed commands that failed. -/
theorem runHookCommands_warnings (run : String → HookResult)
    (co : Bool) (cmds : List String) :
    (runHookCommands run co cmds).warnings
      = (runHookCommands run co cmds).executed.filter
          (fun c => !(run c).success) := by
  induction cmds with
  | nil => rfl
  | cons c rest ih =>
      by_cases h : (run c).success
      · simp [runHookCommands, h, ih]
      · cases co <;> simp [runHookCommands, h, ih]

/-- C4: with `continueOnError = false` the commands run strictly in order
and execution stops right after the first failing command; with
`continueOnError = true` all commands run in order regardless of failures;
in either case every failed executed command is logged as a warning, and
`executeHook` is a total function (it never throws). -/
theorem hook_execution_policy (cmds : List String) (t : Option Int)
    (run : String → HookResult) :
    (executeHook (some (.obj (.many cmds) t (some false))) run).executed
      = cmds.takeWhile (fun c => (run c).success)
        ++ (cmds.dropWhile (fun c => (run c).success)).take 1
  ∧ (executeHook (some (.obj (.many cmds) t (some true))) run).executed = cmds
  ∧ ∀ cfg : Option HookCommand,
      (executeHook cfg run).warnings
        = (executeHook cfg run).executed.filter (fun c => !(run c).success) := by
  refine ⟨?_, ?_, ?_⟩
  · cases cmds with
    | nil => rfl
    | cons c rest =>
        simpa [executeHook, normalizeHookConfig, StrOrList.toList] using
          runHookCommands_stop run (c :: rest)
  · cases cmds with
    | nil => rfl
    | cons c rest =>
        simpa [executeHook, normalizeHookConfig, StrOrList.toList] using
          runHookCommands_all run (c :: rest)
  · intro cfg
    rcases h : normalizeHookConfig cfg with _ | n
    · simp [executeHook, h]
    · by_cases he : n.commands.isEmpty
      · simp [executeHook, h, he]
      · simp [executeHook, h, he, runHookCommands_warnings]

/-- Witness for C4 at a concrete three-command hook whose second command
fails. -/
theorem hook_execution_policy_witness :
    (executeHook
        (some (.obj (.many ["a", "b", "c"]) none (some false)))
        (fun c => ⟨c != "b", 0, false⟩)).executed = ["a", "b"]
  ∧ (executeHook
        (some (.obj (.many ["a", "b", "c"]) none (some true)))
        (fun c => ⟨c != "b", 0, false⟩)).executed = ["a", "b", "c"] :=
  ⟨by rw [(hook_execution_policy ["a", "b", "c"] none
        (fun c => ⟨c != "b", 0, false⟩)).1]; decide,
   (hook_execution_policy ["a", "b", "c"] none
        (fun c => ⟨c != "b", 0, false⟩)).2.1⟩

/-- C5: normalization maps a (nonempty) string to a one-command record
with defaults `timeout = 30` and `continueOnError = false`, an array to
the same commands in order with the same defaults, and an object to
exactly its explicit fields with unspecified fields defaulted (a string
`commands` value wrapped as a one-element list); absent or empty
configuration — `undefined`, the falsy empty string, or an empty command
list — performs no work and raises no error. -/
theorem hook_normalization (s : String) (l : List String) (c : StrOrList)
    (t : Option Int) (e : Option Bool) (run : String → HookResult) :
    (s ≠ "" → normalizeHookConfig (some (.str s)) = some ⟨[s], 30, false⟩)
  ∧ normalizeHookConfig (some (.arr l)) = some ⟨l, 30, false⟩
  ∧ normalizeHookConfig (some (.obj c t e))
      = some ⟨c.toList, t.getD 30, e.getD false⟩
  ∧ normalizeHookConfig none = none
  ∧ normalizeHookConfig (some (.str "")) = none
  ∧ executeHook none run = ⟨[], []⟩
  ∧ executeHook (some (.str "")) run = ⟨[], []⟩
  ∧ executeHook (some (.arr [])) run = ⟨[], []⟩
  ∧ executeHook (some (.obj (.many []) t e)) run = ⟨[], []⟩ := by
  refine ⟨?_, rfl, rfl, rfl, rfl, rfl, rfl, rfl, rfl⟩
  intro h
  simp only [normalizeHookConfig, if_neg h, DEFAULT_TIMEOUT]

/-- Witness for C5 at concrete configurations, discharging the
nonempty-string hypothesis. -/
theorem hook_normalization_witness :
    ("npm install" : String) ≠ ""
  ∧ normalizeHookConfig (some (.str "npm install"))
      = some ⟨["npm install"], 30, false⟩ :=
  ⟨by decide,
   (hook_normalization "npm install" [] (.one "x") none none
     (fun _ => ⟨true, 0, false⟩)).1 (by decide)⟩

/-- C6 counterexample: the accepted object form's timeout field is named
`timeout`, not `timeoutSeconds`; an object carrying `timeoutSeconds: 60`
is accepted with the unknown key stripped and normalizes to the default
timeout 30, not 60. -/
theorem hook_timeout_field_cex :
    parseHookCommandJson
        (.obj [("commands", .str "echo hi"), ("timeoutSeconds", .num 60)])
      = some (.obj (.one "echo hi") none none)
  ∧ (normalizeHookConfig (parseHookCommandJson
        (.obj [("commands", .str "echo hi"), ("timeoutSeconds", .num 60)]))).map
      NormalizedHookConfig.timeout = some 30
  ∧ (30 : Int) ≠ 60 := by
  refine ⟨by decide, by decide, by decide⟩

/-- C6 (amended): the structured hook configuration form's timeout field
is named `timeout` and must be positive, defaulting to 30: an accepted
object configuration carrying `timeout: N` normalizes to a per-command
timeout of N seconds, a non-positive `timeout` is rejected by the schema,
and an absent `timeout` defaults to 30. -/
theorem hook_timeout_field (s : String) (N : Int) (hN : 0 < N) :
    parseHookCommandJson (.obj [("commands", .str s), ("timeout", .num N)])
      = some (.obj (.one s) (some N) none)
  ∧ (normalizeHookConfig (some (.obj (.one s) (some N) none))).map
      NormalizedHookConfig.timeout = some N
  ∧ (∀ M : Int, M ≤ 0 →
      parseHookCommandJson (.obj [("commands", .str s), ("timeout", .num M)])
        = none)
  ∧ (normalizeHookConfig (some (.obj (.one s) none none))).map
      NormalizedHookConfig.timeout = some 30 := by
  refine ⟨?_, rfl, ?_, rfl⟩
  · simp [parseHookCommandJson, lookupField, List.find?, parseCommandsField,
          parseTimeoutField, parseContinueField, hN]
  · intro M hM
    simp [parseHookCommandJson, lookupField, List.find?, parseCommandsField,
          parseTimeoutField, parseContinueField, not_lt.mpr hM]

/-- Witness for C6's amended theorem at a concrete configuration. -/
theorem hook_timeout_field_witness :
    (0 : Int) < 60
  ∧ parseHookCommandJson
        (.obj [("commands", .str "echo"), ("timeout", .num 60)])
      = some (.obj (.one "echo") (some 60) none) :=
  ⟨by decide, (hook_timeout_field "echo" 60 (by decide)).1⟩

/-! ## Properties of the status engine -/

/-- With no branch, the status computation reduces to the dirty and stale
checks. -/
theorem getWorktreeStatus_none (env : GitEnv) (configured : Option String) :
    getWorktreeStatus env none configured
      = ⟨dirtyBlock env ++ staleBlock env, none, none, none⟩ := rfl

/-- With a branch but no resolvable comparison branch, the status
computation reduces to the dirty and stale checks. -/
theorem getWorktreeStatus_noCmp (env : GitEnv) (br : String)
    (configured : Option String)
    (h : resolveComparisonBranch env.verify configured = none) :
    getWorktreeStatus env (some br) configured
      = ⟨dirtyBlock env ++ staleBlock env, none, none, none⟩ := by
  simp [getWorktreeStatus, h]

/-- With a branch and a resolved comparison branch, the result is the
concatenation of the four blocks in push order. -/
theorem getWorktreeStatus_some (env : GitEnv) (br : String)
    (configured : Option String) (cmp : String)
    (h : resolveComparisonBranch env.verify configured = some cmp) :
    getWorktreeStatus env (some br) configured
      = ⟨dirtyBlock env
          ++ (syncBlock env br (getMainBranch env.verify) cmp).statuses
          ++ mergedBlock env br (getMainBranch env.verify) cmp
               (syncBlock env br (getMainBranch env.verify) cmp).behind
          ++ staleBlock env,
         (syncBlock env br (getMainBranch env.verify) cmp).ahead,
         (syncBlock env br (getMainBranch env.verify) cmp).behind,
         some cmp⟩ := by
  simp [getWorktreeStatus, h]

/-- The ahead/behind block either sets nothing or sets both counts and
pushes exactly the classification of those counts. -/
theorem syncBlock_char (env : GitEnv) (br : String) (mb : Option String)
    (cmp : String) :
    syncBlock env br mb cmp = ⟨[], none, none⟩
  ∨ ∃ a b : Int,
      syncBlock env br mb cmp = ⟨[classifySync a b], some a, some b⟩ := by
  unfold syncBlock
  split
  · split
    · rcases h : parseAheadBehind (env.revListLeftRight cmp).stdout
        with _ | ⟨b, a⟩
      · simp [h]
      · simp [h]
    · exact Or.inl rfl
  · exact Or.inl rfl

/-- Every element of the dirty block is `dirty`. -/
theorem eq_dirty_of_mem {env : GitEnv} {s : WorktreeStatus}
    (h : s ∈ dirtyBlock env) : s = .dirty := by
  unfold dirtyBlock at h
  split at h
  · simpa using h
  · simp at h

/-- Every element of the stale block is `stale`. -/
theorem eq_stale_of_mem {env : GitEnv} {s : WorktreeStatus}
    (h : s ∈ staleBlock env) : s = .stale := by
  unfold staleBlock at h
  split at h
  · split at h
    · split at h
      · simpa using h
      · simp at h
    · simp at h
  · simp at h

/-- Every element of the merged block is `merged`. -/
theorem eq_merged_of_mem {env : GitEnv} {br : String} {mb : Option String}
    {cmp : String} {bh : Option Int} {s : WorktreeStatus}
    (h : s ∈ mergedBlock env br mb cmp bh) : s = .merged := by
  unfold mergedBlock at h
  split at h
  · split at h
    · split at h
      · split at h
        · simpa using h
        · simp at h
      · simp at h
    · simp at h
  · simp at h

/-- The classification of a pair of counts is a sync state. -/
theorem isSyncState_classifySync (a b : Int) :
    isSyncState (classifySync a b) = true := by
  unfold classifySync
  split_ifs <;> rfl

/-- The spec's classification table also yields a sync state. -/
theorem isSyncState_specSyncState (a b : Int) :
    isSyncState (specSyncState a b) = true := by
  unfold specSyncState
  split_ifs <;> rfl

/-- The source's classification agrees with the spec's table on
non-negative counts. -/
theorem classifySync_eq_spec (a b : Int) (ha : 0 ≤ a) (hb : 0 ≤ b) :
    classifySync a b = specSyncState a b := by
  unfold classifySync specSyncState
  split_ifs <;> first | rfl | (exfalso; omega)

/-- No sync state occurs in the dirty block. -/
theorem filter_sync_dirtyBlock (env : GitEnv) :
    (dirtyBlock env).filter (fun s => isSyncState s) = [] :=
  List.filter_eq_nil_iff.mpr fun a ha => by
    simp [eq_dirty_of_mem ha, isSyncState]

/-- No sync state occurs in the stale block. -/
theorem filter_sync_staleBlock (env : GitEnv) :
    (staleBlock env).filter (fun s => isSyncState s) = [] :=
  List.filter_eq_nil_iff.mpr fun a ha => by
    simp [eq_stale_of_mem ha, isSyncState]

/-- No sync state occurs in the merged block. -/
theorem filter_sync_mergedBlock (env : GitEnv) (br : String)
    (mb : Option String) (cmp : String) (bh : Option Int) :
    (mergedBlock env br mb cmp bh).filter (fun s => isSyncState s) = [] :=
  List.filter_eq_nil_iff.mpr fun a ha => by
    simp [eq_merged_of_mem ha, isSyncState]

/-- The comparison branch reported by the status computation is exactly
the resolved one. -/
theorem getWorktreeStatus_comparisonBranch (env : GitEnv) (br : String)
    (configured : Option String) :
    (getWorktreeStatus env (some br) configured).comparisonBranch
      = resolveComparisonBranch env.verify configured := by
  rcases h : resolveComparisonBranch env.verify configured with _ | cmp
  · rw [getWorktreeStatus_noCmp env br configured h]
  · rw [getWorktreeStatus_some env br configured cmp h]

/-- The two probing loops of `getComparisonBranch` behave as a single
first-match search over the concatenated candidate list. -/
theorem getComparisonBranch_eq_find (v : String → Bool) :
    getComparisonBranch v
      = (REMOTE_DEFAULT_BRANCHES ++ DEFAULT_BRANCHES).find? v := by
  unfold getComparisonBranch
  rw [List.find?_append]
  rcases h : REMOTE_DEFAULT_BRANCHES.find? v with _ | b <;> simp [h]

/-- Staleness appears in the stale block exactly when the timestamp query
succeeded, the timestamp parsed, and the age strictly exceeds the
threshold. -/
theorem stale_mem_staleBlock_iff (env : GitEnv) :
    WorktreeStatus.stale ∈ staleBlock env
  ↔ env.logLastCt.success = true
    ∧ ∃ ts : Int,
        parseIntChars (trimChars env.logLastCt.stdout.data) = some ts
        ∧ (env.nowSec - (ts : ℚ)) / 86400 > STALE_DAYS_THRESHOLD := by
  unfold staleBlock
  split
  · rcases h : parseIntChars (trimChars env.logLastCt.stdout.data)
      with _ | ts
    · simp_all
    · by_cases hgt : (env.nowSec - (ts : ℚ)) / 86400 > STALE_DAYS_THRESHOLD <;>
        simp_all
  · simp_all

/-- The merged condition appears in the merged block exactly under the
source's guard and membership conditions. -/
theorem merged_mem_mergedBlock_iff (env : GitEnv) (br : String)
    (mb : Option String) (cmp : String) (bh : Option Int) :
    WorktreeStatus.merged ∈ mergedBlock env br mb cmp bh
  ↔ ∃ m b, mb = some m ∧ bh = some b ∧ br ≠ m ∧ b ≠ 0 ∧ 0 < b
      ∧ (env.branchesMerged (mergeCheckRef cmp m)).success = true
      ∧ br.data ∈
          mergedListingOf (env.branchesMerged (mergeCheckRef cmp m)).stdout := by
  unfold mergedBlock
  rcases mb with _ | m <;> rcases bh with _ | b
  · simp
  · simp
  · simp
  · by_cases h1 : br ≠ m ∧ b ≠ 0 ∧ 0 < b
    · by_cases h2 : (env.branchesMerged (mergeCheckRef cmp m)).success = true
      · by_cases h3 : br.data ∈
            mergedListingOf (env.branchesMerged (mergeCheckRef cmp m)).stdout
        · simp_all
        · simp_all
      · simp_all
    · simp_all [and_assoc]

/-- Every element pushed by the ahead/behind block is a sync state. -/
theorem sync_statuses_mem {env : GitEnv} {br : String} {mb : Option String}
    {cmp : String} {s : WorktreeStatus}
    (h : s ∈ (syncBlock env br mb cmp).statuses) : isSyncState s = true := by
  rcases syncBlock_char env br mb cmp with hc | ⟨a, b, hc⟩
  · rw [hc] at h
    simp at h
  · rw [hc] at h
    simp at h
    rw [h]
    exact isSyncState_classifySync a b

/-- Staleness occurs in the overall status exactly when it occurs in the
stale block: no other block produces it. -/
theorem stale_mem_status_iff (env : GitEnv) (branch configured : Option String) :
    WorktreeStatus.stale ∈ (getWorktreeStatus env branch configured).status
  ↔ WorktreeStatus.stale ∈ staleBlock env := by
  have hd : WorktreeStatus.stale ∉ dirtyBlock env := fun h =>
    absurd (eq_dirty_of_mem h) (by decide)
  rcases branch with _ | br
  · rw [getWorktreeStatus_none]
    simp [List.mem_append, hd]
  · rcases hres : resolveComparisonBranch env.verify configured with _ | cmp
    · rw [getWorktreeStatus_noCmp env br configured hres]
      simp [List.mem_append, hd]
    · rw [getWorktreeStatus_some env br configured cmp hres]
      have hs : WorktreeStatus.stale ∉
          (syncBlock env br (getMainBranch env.verify) cmp).statuses := by
        intro h
        have := sync_statuses_mem h
        simp [isSyncState] at this
      have hm : WorktreeStatus.stale ∉
          mergedBlock env br (getMainBranch env.verify) cmp
            (syncBlock env br (getMainBranch env.verify) cmp).behind := fun h =>
        absurd (eq_merged_of_mem h) (by decide)
      simp [List.mem_append, hd, hs, hm]

/-- C1: when an explicitly-configured comparison branch is supplied the
status computation uses it as the comparison branch, regardless of which
refs verify; only with no configured branch does it probe, and that
probing is a first-match search over `origin/main`, `origin/master`,
`main`, `master` in that order. -/
theorem comparison_branch_resolution (env : GitEnv) (br cfgB : String) :
    (getWorktreeStatus env (some br) (some cfgB)).comparisonBranch = some cfgB
  ∧ (∀ v : String → Bool, resolveComparisonBranch v (some cfgB) = some cfgB)
  ∧ (getWorktreeStatus env (some br) none).comparisonBranch
      = (REMOTE_DEFAULT_BRANCHES ++ DEFAULT_BRANCHES).find? env.verify
  ∧ (∀ v : String → Bool,
      resolveComparisonBranch v none
        = (REMOTE_DEFAULT_BRANCHES ++ DEFAULT_BRANCHES).find? v) := by
  refine ⟨?_, fun v => rfl, ?_, fun v => getComparisonBranch_eq_find v⟩
  · rw [getWorktreeStatus_comparisonBranch]
    rfl
  · rw [getWorktreeStatus_comparisonBranch]
    exact getComparisonBranch_eq_find env.verify

/-- Witness for C1 at a concrete environment and configured branch. -/
theorem comparison_branch_resolution_witness :
    (getWorktreeStatus envCounts (some "x") (some "develop")).comparisonBranch
      = some "develop" :=
  (comparison_branch_resolution envCounts "x" "develop").1

/-- C2: the ahead and behind counts are present exactly together, a sync
state is present exactly when they are, and for non-negative parsed counts
the computation adds exactly the sync state given by the spec's pure
classification table. -/
theorem sync_state_classification (env : GitEnv)
    (branch configured : Option String) :
    ((getWorktreeStatus env branch configured).ahead.isSome
      ↔ (getWorktreeStatus env branch configured).behind.isSome)
  ∧ ((getWorktreeStatus env branch configured).status.countP
        (fun s => isSyncState s)
      = if (getWorktreeStatus env branch configured).ahead.isSome then 1 else 0)
  ∧ (∀ a b : Int,
      (getWorktreeStatus env branch configured).ahead = some a →
      (getWorktreeStatus env branch configured).behind = some b →
      0 ≤ a → 0 ≤ b →
      (getWorktreeStatus env branch configured).status.filter
          (fun s => isSyncState s)
        = [specSyncState a b]) := by
  rcases branch with _ | br
  · rw [getWorktreeStatus_none]
    refine ⟨by simp, ?_, ?_⟩
    · simp [List.countP_append, List.countP_eq_length_filter,
            filter_sync_dirtyBlock, filter_sync_staleBlock]
    · intro a b ha
      simp at ha
  · rcases hres : resolveComparisonBranch env.verify configured with _ | cmp
    · rw [getWorktreeStatus_noCmp env br configured hres]
      refine ⟨by simp, ?_, ?_⟩
      · simp [List.countP_append, List.countP_eq_length_filter,
              filter_sync_dirtyBlock, filter_sync_staleBlock]
      · intro a b ha
        simp at ha
    · rw [getWorktreeStatus_some env br configured cmp hres]
      rcases syncBlock_char env br (getMainBranch env.verify) cmp
        with hc | ⟨a0, b0, hc⟩
      · rw [hc]
        refine ⟨by simp, ?_, ?_⟩
        · simp [List.countP_append, List.countP_eq_length_filter,
                filter_sync_dirtyBlock, filter_sync_staleBlock,
                filter_sync_mergedBlock]
        · intro a b ha
          simp at ha
      · rw [hc]
        refine ⟨by simp, ?_, ?_⟩
        · simp [List.countP_append, List.countP_eq_length_filter,
                filter_sync_dirtyBlock, filter_sync_staleBlock,
                filter_sync_mergedBlock, List.filter_cons,
                isSyncState_classifySync]
        · intro a b ha hb ha0 hb0
          simp only at ha hb
          injection ha with ha
          injection hb with hb
          subst ha
          subst hb
          simp [List.filter_append, filter_sync_dirtyBlock,
                filter_sync_staleBlock, filter_sync_mergedBlock,
                List.filter_cons, isSyncState_classifySync,
                isSyncState_specSyncState,
                classifySync_eq_spec a0 b0 ha0 hb0]

/-- Witness for C2 at an environment reporting counts (0, 0). -/
theorem sync_state_classification_witness :
    (getWorktreeStatus envCounts (some "feature-x") none).ahead = some 0
  ∧ (getWorktreeStatus envCounts (some "feature-x") none).behind = some 0
  ∧ (getWorktreeStatus envCounts (some "feature-x") none).status.filter
      (fun s => isSyncState s) = [specSyncState 0 0] :=
  ⟨by decide, by decide,
   (sync_state_classification envCounts (some "feature-x") none).2.2 0 0
     (by decide) (by decide) (by decide) (by decide)⟩

/-- C3: the merged condition appears exactly when a comparison branch
resolved, a mainline exists, the branch is not the mainline, the behind
count is at least one, and the branch appears in the merged listing taken
against the remote-qualified comparison branch when there is one and the
local mainline otherwise; in the concrete scenario of a worktree 3 behind,
0 ahead and listed as merged, the status carries both behind and
merged. -/
theorem merged_check (env : GitEnv) (br : String) (configured : Option String) :
    (WorktreeStatus.merged ∈ (getWorktreeStatus env (some br) configured).status
      ↔ ∃ cmp m b,
          resolveComparisonBranch env.verify configured = some cmp
          ∧ getMainBranch env.verify = some m
          ∧ br ≠ m
          ∧ (getWorktreeStatus env (some br) configured).behind = some b
          ∧ 1 ≤ b
          ∧ (env.branchesMerged (mergeCheckRef cmp m)).success = true
          ∧ br.data ∈
              mergedListingOf (env.branchesMerged (mergeCheckRef cmp m)).stdout)
  ∧ (getWorktreeStatus envScenario (some "feature-x") none).behind = some 3
  ∧ (getWorktreeStatus envScenario (some "feature-x") none).ahead = some 0
  ∧ WorktreeStatus.behind
      ∈ (getWorktreeStatus envScenario (some "feature-x") none).status
  ∧ WorktreeStatus.merged
      ∈ (getWorktreeStatus envScenario (some "feature-x") none).status := by
  refine ⟨?_, by decide, by decide, by decide, by decide⟩
  rcases hres : resolveComparisonBranch env.verify configured with _ | cmp
  · rw [getWorktreeStatus_noCmp env br configured hres]
    constructor
    · intro hmem
      exfalso
      rcases List.mem_append.mp hmem with h | h
      · exact absurd (eq_dirty_of_mem h) (by decide)
      · exact absurd (eq_stale_of_mem h) (by decide)
    · rintro ⟨cmp, m, b, hcmp, -⟩
      exact Option.noConfusion hcmp
  · rw [getWorktreeStatus_some env br configured cmp hres]
    have hd : WorktreeStatus.merged ∉ dirtyBlock env := fun h =>
      absurd (eq_dirty_of_mem h) (by decide)
    have hst : WorktreeStatus.merged ∉ staleBlock env := fun h =>
      absurd (eq_stale_of_mem h) (by decide)
    have hsy : WorktreeStatus.merged ∉
        (syncBlock env br (getMainBranch env.verify) cmp).statuses := by
      intro h
      have := sync_statuses_mem h
      simp [isSyncState] at this
    constructor
    · intro hmem
      simp only [List.mem_append] at hmem
      rcases hmem with ((h | h) | hm) | h
      · exact absurd h hd
      · exact absurd h hsy
      · rcases (merged_mem_mergedBlock_iff env br (getMainBranch env.verify)
            cmp _).mp hm
          with ⟨m, b, hmain, hbh, hne, hb0, hbpos, hsucc, hmemb⟩
        exact ⟨cmp, m, b, rfl, hmain, hne, hbh, by omega, hsucc, hmemb⟩
      · exact absurd h hst
    · rintro ⟨cmp2, m, b, hcmp2, hmain, hne, hbh, hb1, hsucc, hmemb⟩
      injection hcmp2 with hcmp2
      subst hcmp2
      simp only [List.mem_append]
      refine Or.inl (Or.inr ?_)
      exact (merged_mem_mergedBlock_iff env br (getMainBranch env.verify)
          cmp _).mpr
        ⟨m, b, hmain, hbh, hne, by omega, by omega, hsucc, hmemb⟩

/-- Witness for C3 at the concrete behind-and-merged scenario. -/
theorem merged_check_witness :
    WorktreeStatus.merged
      ∈ (getWorktreeStatus envScenario (some "feature-x") none).status :=
  (merged_check envScenario "feature-x" none).2.2.2.2

/-- C7: staleness is decided by a strict greater-than comparison of the
elapsed seconds divided by 86400 against the 30-day threshold; an age of
exactly 30 days is not stale, and a missing or unparseable timestamp never
yields stale (and raises no error). -/
theorem staleness_strict_threshold (env : GitEnv)
    (branch configured : Option String) :
    (WorktreeStatus.stale ∈ (getWorktreeStatus env branch configured).status
      ↔ env.logLastCt.success = true
        ∧ ∃ ts : Int,
            parseIntChars (trimChars env.logLastCt.stdout.data) = some ts
            ∧ (env.nowSec - (ts : ℚ)) / 86400 > STALE_DAYS_THRESHOLD)
  ∧ (∀ ts : Int,
      parseIntChars (trimChars env.logLastCt.stdout.data) = some ts →
      env.nowSec = (ts : ℚ) + STALE_DAYS_THRESHOLD * 86400 →
      WorktreeStatus.stale ∉ (getWorktreeStatus env branch configured).status)
  ∧ (parseIntChars (trimChars env.logLastCt.stdout.data) = none →
      WorktreeStatus.stale ∉ (getWorktreeStatus env branch configured).status)
    := by
  refine ⟨?_, ?_, ?_⟩
  · rw [stale_mem_status_iff, stale_mem_staleBlock_iff]
  · intro ts hts hnow hmem
    rw [stale_mem_status_iff, stale_mem_staleBlock_iff] at hmem
    rcases hmem with ⟨hsucc, ts2, hts2, hgt⟩
    rw [hts] at hts2
    injection hts2 with h2
    subst h2
    rw [hnow] at hgt
    have hval : ((ts : ℚ) + STALE_DAYS_THRESHOLD * 86400 - ts) / 86400
        = STALE_DAYS_THRESHOLD := by
      field_simp
    rw [hval] at hgt
    exact lt_irrefl _ hgt
  · intro hnone hmem
    rw [stale_mem_status_iff, stale_mem_staleBlock_iff] at hmem
    rcases hmem with ⟨-, ts2, hts2, -⟩
    rw [hnone] at hts2
    exact Option.noConfusion hts2

/-- Witness for C7 at an environment whose last commit is exactly thirty
days old. -/
theorem staleness_strict_threshold_witness :
    parseIntChars (trimChars envStale30.logLastCt.stdout.data) = some 1000
  ∧ WorktreeStatus.stale ∉ (getWorktreeStatus envStale30 none none).status :=
  ⟨by decide,
   (staleness_strict_threshold envStale30 none none).2.1 1000 (by decide) rfl⟩

/-- C10: with no branch (detached HEAD) the result has no counts, no sync
state, no merged condition, and every condition present is dirty or
stale. -/
theorem detached_head_status (env : GitEnv) (configured : Option String) :
    (getWorktreeStatus env none configured).ahead = none
  ∧ (getWorktreeStatus env none configured).behind = none
  ∧ (getWorktreeStatus env none configured).status.countP
      (fun s => isSyncState s) = 0
  ∧ WorktreeStatus.merged ∉ (getWorktreeStatus env none configured).status
  ∧ ∀ s ∈ (getWorktreeStatus env none configured).status,
      s = .dirty ∨ s = .stale := by
  rw [getWorktreeStatus_none]
  refine ⟨rfl, rfl, ?_, ?_, ?_⟩
  · simp [List.countP_append, List.countP_eq_length_filter,
          filter_sync_dirtyBlock, filter_sync_staleBlock]
  · intro hmem
    rcases List.mem_append.mp hmem with h | h
    · exact absurd (eq_dirty_of_mem h) (by decide)
    · exact absurd (eq_stale_of_mem h) (by decide)
  · intro s hs
    rcases List.mem_append.mp hs with h | h
    · exact Or.inl (eq_dirty_of_mem h)
    · exact Or.inr (eq_stale_of_mem h)

/-- Witness for C10 at a concrete dirty environment. -/
theorem detached_head_status_witness :
    WorktreeStatus.merged ∉ (getWorktreeStatus envDetached none none).status
  ∧ ∀ s ∈ (getWorktreeStatus envDetached none none).status,
      s = .dirty ∨ s = .stale :=
  ⟨(detached_head_status envDetached none).2.2.2.1,
   (detached_head_status envDetached none).2.2.2.2⟩

/-! ## Properties of the worktree listing parser -/

/-- Length of the path tag. -/
theorem worktree_tag_length : ("worktree ".data).length = 9 := rfl

/-- Length of the head tag. -/
theorem head_tag_length : ("HEAD ".data).length = 5 := rfl

/-- A line cannot carry both the path tag and the head tag. -/
theorem not_worktree_and_head (l : List Char) :
    ¬("worktree ".data.isPrefixOf l ∧ "HEAD ".data.isPrefixOf l) := by
  rintro ⟨h1, h2⟩
  have hw : "worktree ".data = 'w' :: "orktree ".data := rfl
  have hh : "HEAD ".data = 'H' :: "EAD ".data := rfl
  rw [hw] at h1
  rw [hh] at h2
  rcases l with _ | ⟨c, cs⟩
  · simp [List.isPrefixOf] at h1
  · simp [List.isPrefixOf] at h1 h2
    exact absurd (h2.1.trans h1.1.symm) (by decide)

/-- The path field of a folded line is set by path-tagged lines only. -/
theorem applyLine_path (w : PartialWorktree) (l : List Char) :
    (applyLine w l).path
      = if "worktree ".data.isPrefixOf l then some (l.drop 9) else w.path := by
  unfold applyLine
  split_ifs <;> rfl

/-- The head field of a folded line is set by head-tagged lines only. -/
theorem applyLine_head (w : PartialWorktree) (l : List Char) :
    (applyLine w l).head
      = if "HEAD ".data.isPrefixOf l ∧ ¬"worktree ".data.isPrefixOf l
        then some (l.drop 5) else w.head := by
  unfold applyLine
  split_ifs <;> first | rfl | tauto

/-- The folded path of a block is the payload of its last path-tagged
line. -/
theorem foldl_applyLine_path (lines : List (List Char)) (w : PartialWorktree) :
    (lines.foldl applyLine w).path
      = match lastTagPayload "worktree ".data lines with
        | some p => some p
        | none => w.path := by
  induction lines generalizing w with
  | nil => rfl
  | cons l ls ih =>
      rw [List.foldl_cons, ih]
      rcases h : lastTagPayload "worktree ".data ls with _ | p
      · rw [applyLine_path]
        by_cases hp : "worktree ".data.isPrefixOf l
        · simp [lastTagPayload, h, hp, worktree_tag_length]
        · simp [lastTagPayload, h, hp]
      · simp [lastTagPayload, h]

/-- The folded head of a block is the payload of its last head-tagged
line. -/
theorem foldl_applyLine_head (lines : List (List Char)) (w : PartialWorktree) :
    (lines.foldl applyLine w).head
      = match lastTagPayload "HEAD ".data lines with
        | some p => some p
        | none => w.head := by
  induction lines generalizing w with
  | nil => rfl
  | cons l ls ih =>
      rw [List.foldl_cons, ih]
      rcases h : lastTagPayload "HEAD ".data ls with _ | p
      · rw [applyLine_head]
        by_cases hh : "HEAD ".data.isPrefixOf l
        · have hw : ¬"worktree ".data.isPrefixOf l := fun hw =>
            not_worktree_and_head l ⟨hw, hh⟩
          simp [lastTagPayload, h, hh, hw, head_tag_length]
        · simp [lastTagPayload, h, hh]
      · simp [lastTagPayload, h]

/-- A block's record is kept exactly when the block is well formed, in
which case it is the block's record. -/
theorem keepWorktree_parseBlock (b : List Char) :
    keepWorktree (parseBlock b)
      = if wellFormedBlock b then some (recordOfBlock (parseBlock b))
        else none := by
  have hpath := foldl_applyLine_path (splitOnChar '\n' [] b) initialPartial
  have hhead := foldl_applyLine_head (splitOnChar '\n' [] b) initialPartial
  rw [show (splitOnChar '\n' [] b).foldl applyLine initialPartial
        = parseBlock b from rfl] at hpath hhead
  unfold keepWorktree wellFormedBlock recordOfBlock
  rcases h1 : lastTagPayload "worktree ".data (splitOnChar '\n' [] b)
    with _ | p
  · rw [h1] at hpath
    simp only [initialPartial] at hpath
    simp [hpath, h1]
  · rw [h1] at hpath
    rcases h2 : lastTagPayload "HEAD ".data (splitOnChar '\n' [] b)
      with _ | hd
    · rw [h2] at hhead
      simp only [initialPartial] at hhead
      simp [hpath, hhead, h1, h2]
    · rw [h2] at hhead
      by_cases hp : p = [] <;> by_cases hh : hd = [] <;>
        simp [hpath, hhead, h1, h2, hp, hh]

/-- Keeping records block by block agrees with keeping exactly the
well-formed blocks. -/
theorem filterMap_keepWorktree (l : List (List Char)) :
    l.filterMap (fun b => keepWorktree (parseBlock b))
      = (l.filter wellFormedBlock).map (fun b => recordOfBlock (parseBlock b))
    := by
  induction l with
  | nil => rfl
  | cons b bs ih =>
      rw [List.filterMap_cons, keepWorktree_parseBlock]
      by_cases h : wellFormedBlock b <;> simp [h, ih]

/-- Every character of every piece produced by the blank-line splitter
comes from the accumulator or the input. -/
theorem splitNN_chars (acc cs : List Char) :
    ∀ piece ∈ splitNN acc cs, ∀ c ∈ piece, c ∈ acc ∨ c ∈ cs := by
  induction acc, cs using splitNN.induct with
  | case1 acc =>
      intro piece hp c hc
      simp only [splitNN, List.mem_singleton] at hp
      subst hp
      exact Or.inl hc
  | case2 acc c0 =>
      intro piece hp c hc
      simp only [splitNN, List.mem_singleton] at hp
      subst hp
      rcases List.mem_append.mp hc with h | h
      · exact Or.inl h
      · exact Or.inr h
  | case3 acc c0 c2 rest hcond ih =>
      intro piece hp c hc
      simp only [splitNN] at hp
      rw [if_pos hcond] at hp
      rcases List.mem_cons.mp hp with hp | hp
      · subst hp
        exact Or.inl hc
      · rcases ih piece hp c hc with h | h
        · simp at h
        · exact Or.inr (List.mem_cons_of_mem _ (List.mem_cons_of_mem _ h))
  | case4 acc c0 c2 rest hcond ih =>
      intro piece hp c hc
      simp only [splitNN] at hp
      rw [if_neg hcond] at hp
      rcases ih piece hp c hc with h | h
      · rcases List.mem_append.mp h with h2 | h2
        · exact Or.inl h2
        · simp only [List.mem_singleton] at h2
          subst h2
          exact Or.inr (List.mem_cons_self _ _)
      · exact Or.inr (List.mem_cons_of_mem _ h)

/-- Trimming a list of whitespace characters leaves nothing. -/
theorem trimChars_eq_nil {cs : List Char}
    (h : ∀ c ∈ cs, Char.isWhitespace c) : trimChars cs = [] := by
  unfold trimChars
  rw [List.dropWhile_eq_nil_iff.mpr fun c hc => h c hc]
  rfl

/-- C8 counterexample: a single non-blank block containing a path line
with a nonempty path (`worktree /a`) and a HEAD line with a nonempty
commit (`HEAD h`) can still parse to zero records, because a later
`worktree ` line overwrites the path with the empty string — so the parsed
count is not the number of blocks in which a path line and a HEAD line are
present. -/
theorem worktree_parse_cex :
    parseWorktreeList "worktree /a\nworktree \nHEAD h" = []
  ∧ ((splitNN [] "worktree /a\nworktree \nHEAD h".data).filter
      (fun b => trimChars b ≠ [])).length = 1
  ∧ (splitOnChar '\n' [] "worktree /a\nworktree \nHEAD h".data).any
      (fun l => "worktree ".data.isPrefixOf l && l.drop 9 ≠ []) = true
  ∧ (splitOnChar '\n' [] "worktree /a\nworktree \nHEAD h".data).any
      (fun l => "HEAD ".data.isPrefixOf l && l.drop 5 ≠ []) = true := by
  refine ⟨by decide, by decide, by decide, by decide⟩

/-- C8 (amended): the parser output contains exactly one record, in
listing order, per non-blank block whose last path-tagged line carries a
nonempty path and whose last HEAD-tagged line carries a nonempty commit
(later tag lines overwrite earlier ones); all other blocks are silently
dropped, and empty or whitespace-only input yields an empty sequence
rather than an error. -/
theorem worktree_list_parse (out : String) :
    parseWorktreeList out
      = (((splitNN [] out.data).filter (fun b => trimChars b ≠ [])).filter
          wellFormedBlock).map (fun b => recordOfBlock (parseBlock b))
  ∧ (out.data.all Char.isWhitespace → parseWorktreeList out = []) := by
  constructor
  · unfold parseWorktreeList
    exact filterMap_keepWorktree _
  · intro hws
    unfold parseWorktreeList
    have hblocks : (splitNN [] out.data).filter (fun b => trimChars b ≠ [])
        = [] := by
      rw [List.filter_eq_nil_iff]
      intro b hb
      have hball : ∀ c ∈ b, Char.isWhitespace c := by
        intro c hc
        rcases splitNN_chars [] out.data b hb c hc with h | h
        · simp at h
        · exact List.all_eq_true.mp hws c h
      simp [trimChars_eq_nil hball]
    rw [hblocks]
    rfl

/-- Witness for C8's amended theorem at a whitespace-only input. -/
theorem worktree_list_parse_witness :
    (" \n\n \t".data.all Char.isWhitespace) = true
  ∧ parseWorktreeList " \n\n \t" = [] :=
  ⟨by decide, (worktree_list_parse " \n\n \t").2 (by decide)⟩

/-! ## Properties of the repository identifier derivation -/

/-- C9: the SSH and HTTPS forms of the same repository derive the same
identifier `github.com-user-repo`; an unrecognized URL derives `repo-`
followed by an eight-character lowercase hex digest; with no remote, a
path derives its basename, a dash, and an eight-character lowercase hex
digest of the absolute path; and the derivation is a pure function, hence
identical across repeated calls on the same input. -/
theorem repo_id_derivation (p q : String) :
    deriveRepoId (some "git@github.com:user/repo.git") "/x"
      = "github.com-user-repo"
  ∧ deriveRepoId (some "https://github.com/user/repo") "/x"
      = "github.com-user-repo"
  ∧ (∃ d : List Char,
      deriveRepoIdFromUrl "file:///local/repo" = "repo-" ++ String.mk d
      ∧ d.length = 8 ∧ d.all isHexChar = true)
  ∧ (∃ d : List Char,
      deriveRepoId none "/Users/dev/myproject" = "myproject-" ++ String.mk d
      ∧ d.length = 8 ∧ d.all isHexChar = true)
  ∧ (p = q → deriveRepoId none p = deriveRepoId none q) := by
  refine ⟨by decide, by decide,
          ⟨"6b7a98ae".data, by decide, by decide, by decide⟩,
          ⟨"fbff500e".data, by decide, by decide, by decide⟩,
          fun h => by rw [h]⟩

/-- Witness for C9's determinism conjunct. -/
theorem repo_id_derivation_witness :
    ("/a" : String) = "/a"
  ∧ deriveRepoId none "/a" = deriveRepoId none "/a" :=
  ⟨rfl, (repo_id_derivation "/a" "/a").2.2.2.2 rfl⟩

end Wtm
